import Mathlib

set_option maxHeartbeats 1000000

namespace CallGraph

/-- A call record found inside a method body (src/call_graph/models/ast_models.py, MethodCall). -/
structure MethodCall where
  name : String
  receiver : Option String
  line : Nat
  col : Nat
deriving DecidableEq, Repr

/-- A method declaration record (src/call_graph/models/ast_models.py, MethodInfo). -/
structure MethodInfo where
  name : String
  params : List String
  return_type : Option String
  line : Nat
  col : Nat
  calls : List MethodCall
deriving DecidableEq, Repr

/-- A class record (src/call_graph/models/ast_models.py, ClassInfo).  Python's
insertion-ordered dict `methods : name -> [overloads]` is modelled as an
insertion-ordered association list. -/
structure ClassInfo where
  simple_name : String
  fqcn : String
  line : Nat
  col : Nat
  methods : List (String × List MethodInfo)
deriving DecidableEq, Repr

/-- The in-memory index owned by JavaIndexer (indexer.py, fields `packages` and
`classes`).  The Python set of packages and the insertion-ordered dict
`fqcn -> ClassInfo` are modelled as lists (the dict with unique keys, in
insertion order). -/
structure Registry where
  packages : List String
  classes : List (String × ClassInfo)
deriving DecidableEq, Repr

/-- A concrete syntax tree node, the external parse-tree provider interface
(spec section 6.1 and tree_sitter_helpers.py).  `ty` is `node.type`;
`fieldChildren` backs `child_by_field_name`; `children` is the ordered child
sequence; `line`/`col` are `node.start_point` (zero based); `text` stands for
`source_bytes[node.start_byte : node.end_byte]` decoded, the only use the
indexer makes of byte offsets (via node_text). -/
inductive Node where
| mk (ty : String) (fieldChildren : List (String × Node)) (children : List Node)
    (line : Nat) (col : Nat) (text : String)

/-- Accessor for node.type. -/
def Node.type : Node → String
| .mk t _ _ _ _ _ => t

/-- Accessor for the named-field children backing child_by_field_name. -/
def Node.fields : Node → List (String × Node)
| .mk _ f _ _ _ _ => f

/-- Accessor for node.children. -/
def Node.children : Node → List Node
| .mk _ _ c _ _ _ => c

/-- Accessor for node.start_point line. -/
def Node.line : Node → Nat
| .mk _ _ _ l _ _ => l

/-- Accessor for node.start_point column. -/
def Node.col : Node → Nat
| .mk _ _ _ _ c _ => c

/-- Accessor for node_text(source_bytes, node) (tree_sitter_helpers.py). -/
def Node.text : Node → String
| .mk _ _ _ _ _ tx => tx

/-- Model of node.child_by_field_name(f): the first named-field child with
field name f, if any. -/
def childByFieldName (n : Node) (f : String) : Option Node :=
  ((n.fields).find? (fun p => p.1 = f)).map (fun p => p.2)

/-- The frame pushed on the class stack: (simple_name, line, col)
(indexer.py line 86). -/
abbrev Frame := String × Nat × Nat

-- SizeOf plumbing for termination of the worklist traversal.

theorem list_sizeOf_append (a b : List Node) : sizeOf (a ++ b) + 1 = sizeOf a + sizeOf b := by
  induction a with
  | nil => simp; omega
  | cons x xs ih => simp [List.cons_append]; omega

theorem list_sizeOf_reverse (a : List Node) : sizeOf a.reverse = sizeOf a := by
  induction a with
  | nil => rfl
  | cons x xs ih =>
      have h := list_sizeOf_append xs.reverse [x]
      simp at h
      simp [List.reverse_cons]
      omega

theorem children_sizeOf_lt (n : Node) : sizeOf n.children < sizeOf n := by
  cases n with
  | mk t f c l co tx => simp [Node.children]; omega

/-- The per-node call records: the two `if node.type == ...` blocks inside the
while-loop of _collect_calls_in_method (indexer.py lines 218-232), in order. -/
def nodeRecords (n : Node) : List MethodCall :=
  (if n.type = "method_invocation" then
      [MethodCall.mk
        ((childByFieldName n ("name")).elim ("<unknown>") Node.text)
        ((childByFieldName n ("object")).map Node.text)
        n.line n.col]
    else []) ++
  (if n.type = "object_creation_expression" then
      [MethodCall.mk
        ("<init:" ++ (childByFieldName n ("type")).elim ("<anon>") Node.text ++ ">")
        none n.line n.col]
    else [])

/-- The explicit worklist loop of _collect_calls_in_method (indexer.py lines
214-235).  The Python stack pops from the end and extends with node.children at
the end; we hold the stack top-first, so pop is head and
`stack.extend(node.children)` becomes `n.children.reverse ++ rest`. -/
def collectLoop : List Node → List MethodCall → List MethodCall
| [], acc => acc
| n :: rest, acc => collectLoop (n.children.reverse ++ rest) (acc ++ nodeRecords n)
termination_by st _ => sizeOf st
decreasing_by
  have h1 := children_sizeOf_lt n
  have h2 := list_sizeOf_append n.children.reverse rest
  rw [list_sizeOf_reverse] at h2
  simp; omega

/-- JavaIndexer._collect_calls_in_method: all call records harvested from the
method node's subtree, in worklist order. -/
def collectCallsInMethod (methodNode : Node) : List MethodCall :=
  collectLoop [methodNode] []

mutual

/-- Closed form of the worklist order of collectLoop: the node's own records,
then the records of its children processed last child first (the LIFO stack
pops the most recently pushed child first).  Structurally recursive, so it
evaluates by rfl; collectLoop is proved equal to it below. -/
def mirrorRecords : Node → List MethodCall
| n@(Node.mk _ _ cs _ _ _) => nodeRecords n ++ mirrorRecordsList cs

/-- Records of a child list in collectLoop order: last child's subtree first. -/
def mirrorRecordsList : List Node → List MethodCall
| [] => []
| a :: as => mirrorRecordsList as ++ mirrorRecords a

end

/-- Records of a worklist, top first: the records of each stacked subtree in
order. -/
def stackRecords : List Node → List MethodCall
| [] => []
| a :: as => mirrorRecords a ++ stackRecords as

theorem stackRecords_append (a b : List Node) :
    stackRecords (a ++ b) = stackRecords a ++ stackRecords b := by
  induction a with
  | nil => simp [stackRecords]
  | cons x xs ih => simp [stackRecords, ih]

theorem stackRecords_reverse (l : List Node) :
    stackRecords l.reverse = mirrorRecordsList l := by
  induction l with
  | nil => simp [stackRecords, mirrorRecordsList]
  | cons x xs ih =>
      simp [List.reverse_cons, stackRecords_append, stackRecords, mirrorRecordsList, ih]

theorem collectLoop_eq_stackRecords (st : List Node) (acc : List MethodCall) :
    collectLoop st acc = acc ++ stackRecords st := by
  induction st, acc using collectLoop.induct with
  | case1 acc => simp [collectLoop, stackRecords]
  | case2 n rest acc ih =>
      rw [collectLoop, ih, stackRecords_append, stackRecords_reverse]
      simp [stackRecords, mirrorRecords]
      cases n with
      | mk t f c l co tx => simp [mirrorRecords, Node.children]

/-- The collector's output is exactly the mirror-order record list of the
method node's subtree. -/
theorem collectCallsInMethod_eq (n : Node) :
    collectCallsInMethod n = mirrorRecords n := by
  rw [collectCallsInMethod, collectLoop_eq_stackRecords]
  simp [stackRecords]

/-- JavaIndexer._fqcn (indexer.py lines 147-150).  Python's
`left = pkg + "." if pkg else ""` treats both None and the empty string as
falsy, so both yield an empty prefix. -/
def fqcnOf (pkg : Option String) (classNames : List String) : String :=
  (match pkg with
   | some p => if p = "" then "" else p ++ "."
   | none => "") ++ String.intercalate (".") classNames

/-- The simple names of the frames on the class stack,
`[c[0] for c in class_stack]` (indexer.py lines 117 and 162). -/
def stackNames (st : List Frame) : List String := st.map (fun f => f.1)

/-- The keys of the classes dict, in insertion order. -/
def classKeys (R : Registry) : List String := R.classes.map (fun p => p.1)

/-- Model of the dict lookup `self.classes[fqcn]` result when present:
the value at the first matching key. -/
def lookupClass (R : Registry) (f : String) : Option ClassInfo :=
  ((R.classes).find? (fun p => p.1 = f)).map (fun p => p.2)

/-- The `if fqcn not in self.classes: self.classes[fqcn] = ClassInfo(...)`
block of _walk_and_index (indexer.py lines 119-127): register the class on
first encounter, keep the existing entry otherwise. -/
def registerClass (R : Registry) (f simple : String) (line col : Nat) : Registry :=
  if f ∈ classKeys R then R
  else Registry.mk R.packages (R.classes ++ [(f, ClassInfo.mk simple f line col [])])

/-- Python's `methods.setdefault(name, []).append(mi)` on the insertion-ordered
methods dict (indexer.py line 202): append to the existing overload list, or
insert a new singleton entry at the end. -/
def setdefaultAppend (m : List (String × List MethodInfo)) (k : String) (v : MethodInfo) :
    List (String × List MethodInfo) :=
  if (m.find? (fun p => p.1 = k)).isSome then
    m.map (fun p => if p.1 = k then (p.1, p.2 ++ [v]) else p)
  else m ++ [(k, [v])]

/-- The in-place mutation of the ClassInfo stored under key f, as a map
replacement of that entry. -/
def updateClass (R : Registry) (f : String) (ci : ClassInfo) : Registry :=
  Registry.mk R.packages (R.classes.map (fun p => if p.1 = f then (p.1, ci) else p))

/-- The signature-extraction part of JavaIndexer._index_method (indexer.py
lines 164-195): method name (placeholder when the name field is missing),
return type (only read for method_declaration nodes), the parameter tokens
built from children of the parameters field that have type "parameter", the
declaration's start point, and the calls collected from the declaration's
subtree. -/
def extractMethodInfo (n : Node) : MethodInfo :=
  MethodInfo.mk
    ((childByFieldName n ("name")).elim ("<anonymous>") Node.text)
    (match childByFieldName n ("parameters") with
     | none => []
     | some pn =>
        pn.children.filterMap (fun p =>
          if p.type = "parameter" then
            some (((childByFieldName p ("type")).elim ("?") Node.text) ++ " " ++
                  ((childByFieldName p ("name")).elim ("param") Node.text))
          else none))
    (if n.type = "method_declaration" then (childByFieldName n ("type")).map Node.text
     else none)
    n.line n.col
    (collectCallsInMethod n)

/-- JavaIndexer._index_method (indexer.py lines 152-202).  With an empty class
stack the declaration is skipped; otherwise the owning FQCN is resolved and
`self.classes[fqcn]` is read without a guard — a missing key is Python's
KeyError, modelled as the error case. -/
def indexMethod (pkg : Option String) (n : Node) (st : List Frame) (R : Registry) :
    Except String Registry :=
  if st = [] then Except.ok R
  else
    match lookupClass R (fqcnOf pkg (stackNames st)) with
    | none => Except.error ("KeyError: " ++ fqcnOf pkg (stackNames st))
    | some cls =>
        Except.ok (updateClass R (fqcnOf pkg (stackNames st))
          (ClassInfo.mk cls.simple_name cls.fqcn cls.line cls.col
            (setdefaultAppend cls.methods (extractMethodInfo n).name (extractMethodInfo n))))

mutual

/-- JavaIndexer._walk_and_index (indexer.py lines 102-145).  A named
class_declaration pushes a frame, registers the FQCN, recurses into its own
children only, then pops (the Python early return skips the generic
recursion); a method-like node is indexed and then generic recursion resumes;
everything else just recurses into children.  The mutated Python stack is
threaded as explicit state.  The node is matched so that the recursion into
its child list is structural. -/
def walkAndIndex (pkg : Option String) : Node → List Frame → Registry →
    Except String (Registry × List Frame)
| n@(Node.mk _ _ cs _ _ _), st, R =>
  if h : n.type = "class_declaration" ∧ (childByFieldName n ("name")).isSome then
    let nameNode := (childByFieldName n ("name")).get h.2
    let st1 := st ++ [(nameNode.text, n.line, n.col)]
    let R1 := registerClass R (fqcnOf pkg (stackNames st1)) nameNode.text n.line n.col
    match walkAndIndexList pkg cs st1 R1 with
    | Except.error e => Except.error e
    | Except.ok (R2, st2) => Except.ok (R2, st2.dropLast)
  else
    match (if n.type = "method_declaration" ∨ n.type = "constructor_declaration"
           then indexMethod pkg n st R else Except.ok R) with
    | Except.error e => Except.error e
    | Except.ok R1 => walkAndIndexList pkg cs st R1

/-- The `for child in node.children: self._walk_and_index(...)` loops of
_walk_and_index, threading registry and stack left to right. -/
def walkAndIndexList (pkg : Option String) : List Node → List Frame → Registry →
    Except String (Registry × List Frame)
| [], st, R => Except.ok (R, st)
| c :: cs, st, R =>
  match walkAndIndex pkg c st R with
  | Except.error e => Except.error e
  | Except.ok (R1, st1) => walkAndIndexList pkg cs st1 R1

end

/-- JavaIndexer._find_package (indexer.py lines 91-100): the first
package_declaration child of the root that has a name field yields its text. -/
def findPackage (root : Node) : Option String :=
  (root.children.filterMap (fun c =>
    if c.type = "package_declaration" then (childByFieldName c ("name")).map Node.text
    else none)).head?

/-- The `self.packages.add(...)` set insertion (indexer.py line 83). -/
def addPackage (R : Registry) (p : String) : Registry :=
  if p ∈ R.packages then R else Registry.mk (R.packages ++ [p]) R.classes

/-- JavaIndexer.index_source (indexer.py lines 73-87) given the parsed root
node of a unit: resolve the package (added to the package set only when
truthy, i.e. non-empty) and walk the tree from an empty class stack. -/
def indexSource (root : Node) (R : Registry) : Except String Registry :=
  let pkg := findPackage root
  let R1 := match pkg with
            | some p => if p = "" then R else addPackage R p
            | none => R
  match walkAndIndex pkg root [] R1 with
  | Except.error e => Except.error e
  | Except.ok (R2, _) => Except.ok R2

/-- The indexer's initial empty state (indexer.py lines 63-64). -/
def emptyRegistry : Registry := Registry.mk [] []

/-- Modelled from index_directory (inputs/directory_scanning.py lines 12-25)
over the already-enumerated list of .java files; each file is its parsed root
node, or none when reading or parsing that file raises.  The module imports
only `os`, yet the except handler prints to `sys.stderr`; executing the
handler therefore raises NameError (the name sys is unbound), which propagates
and aborts the batch.  Both a failed read and an indexing error reach that
handler. -/
def indexDirectory (files : List (String × Option Node)) (R : Registry) :
    Except String Registry :=
  match files with
  | [] => Except.ok R
  | (_, none) :: _ => Except.error ("NameError: name sys is not defined")
  | (_, some root) :: rest =>
    match indexSource root R with
    | Except.error _ => Except.error ("NameError: name sys is not defined")
    | Except.ok R1 => indexDirectory rest R1

mutual

/-- Modelled from the spec (sections 3 and 4.5): the invocation and
construction records of a subtree in pre-order, i.e. source occurrence order:
a node's own records first, then its children's records left to right. -/
def preRecords : Node → List MethodCall
| n@(Node.mk _ _ cs _ _ _) => nodeRecords n ++ preRecordsList cs

/-- Pre-order records of a child list, left to right. -/
def preRecordsList : List Node → List MethodCall
| [] => []
| a :: as => preRecords a ++ preRecordsList as

end

mutual

/-- All nodes of a subtree (the node itself and every descendant), pre-order. -/
def subtreeNodes : Node → List Node
| n@(Node.mk _ _ cs _ _ _) => n :: subtreeNodesList cs

/-- All nodes of the subtrees of a child list. -/
def subtreeNodesList : List Node → List Node
| [] => []
| a :: as => subtreeNodes a ++ subtreeNodesList as

end

/-- A nesting path of one class-like declaration: the simple names of its
lexically enclosing (named) class declarations in outer-to-inner order, its
own simple name, and its declaration's start point. -/
structure PathEntry where
  enclosing : List String
  simple : String
  line : Nat
  col : Nat
deriving DecidableEq, Repr

mutual

/-- Modelled from the spec (sections 3 and 4.3): the nesting paths of every
named class declaration in a subtree, given the simple names of the class
declarations enclosing that subtree.  A named class declaration contributes
its own entry and extends the enclosing path for its children; any other node
passes the path through unchanged. -/
def declPaths : Node → List String → List PathEntry
| n@(Node.mk _ _ cs _ _ _), pre =>
  if h : n.type = "class_declaration" ∧ (childByFieldName n ("name")).isSome then
    PathEntry.mk pre ((childByFieldName n ("name")).get h.2).text n.line n.col ::
      declPathsList cs (pre ++ [((childByFieldName n ("name")).get h.2).text])
  else declPathsList cs pre

/-- Nesting paths over a child list, left to right. -/
def declPathsList : List Node → List String → List PathEntry
| [], _ => []
| a :: as, pre => declPaths a pre ++ declPathsList as pre

end

/-- The identity part of one classes-dict entry: its key and the ClassInfo
fields other than the accumulating methods dict. -/
structure ClassSkel where
  key : String
  simple : String
  fq : String
  line : Nat
  col : Nat
deriving DecidableEq, Repr

/-- The skeleton of one classes-dict entry. -/
def skelOf (p : String × ClassInfo) : ClassSkel :=
  ClassSkel.mk p.1 p.2.simple_name p.2.fqcn p.2.line p.2.col

/-- A newly registered entry is correct when some declared nesting path
explains it: its key is the FQCN built from package and that path, the stored
fqcn equals the key, and simple name and location come from that
declaration. -/
def NewOk (pkg : Option String) (paths : List PathEntry) (e : ClassSkel) : Prop :=
  ∃ q ∈ paths, e.key = fqcnOf pkg (q.enclosing ++ [q.simple]) ∧ e.fq = e.key ∧
    e.simple = q.simple ∧ e.line = q.line ∧ e.col = q.col

mutual

/-- Modelled from the spec (section 4.3): the nodes visited in a subtree
paired with the chain of frames of their lexically enclosing named class
declarations, outer-to-inner, given the chain enclosing the subtree.  A named
class declaration is visited under the outer chain and its children under the
chain extended with its own (simple_name, line, col) frame. -/
def specVisits : Node → List Frame → List (Node × List Frame)
| n@(Node.mk _ _ cs _ _ _), chain =>
  (n, chain) ::
    (if h : n.type = "class_declaration" ∧ (childByFieldName n ("name")).isSome then
      specVisitsList cs
        (chain ++ [(((childByFieldName n ("name")).get h.2).text, n.line, n.col)])
    else specVisitsList cs chain)

/-- Spec visit chains over a child list, left to right. -/
def specVisitsList : List Node → List Frame → List (Node × List Frame)
| [], _ => []
| a :: as, chain => specVisits a chain ++ specVisitsList as chain

end

mutual

/-- The walk of walkAndIndex instrumented with a visit log: identical control
flow and state, but additionally records, for every node the traversal
reaches, the class stack at the moment that node is processed.  Used to state
that the stack always matches the lexical nesting chain. -/
def walkLog (pkg : Option String) : Node → List Frame → Registry →
    Except String (Registry × List Frame × List (Node × List Frame))
| n@(Node.mk _ _ cs _ _ _), st, R =>
  if h : n.type = "class_declaration" ∧ (childByFieldName n ("name")).isSome then
    let nameNode := (childByFieldName n ("name")).get h.2
    let st1 := st ++ [(nameNode.text, n.line, n.col)]
    let R1 := registerClass R (fqcnOf pkg (stackNames st1)) nameNode.text n.line n.col
    match walkLogList pkg cs st1 R1 with
    | Except.error e => Except.error e
    | Except.ok (R2, st2, L) => Except.ok (R2, st2.dropLast, (n, st) :: L)
  else
    match (if n.type = "method_declaration" ∨ n.type = "constructor_declaration"
           then indexMethod pkg n st R else Except.ok R) with
    | Except.error e => Except.error e
    | Except.ok R1 =>
      match walkLogList pkg cs st R1 with
      | Except.error e => Except.error e
      | Except.ok (R2, st2, L) => Except.ok (R2, st2, (n, st) :: L)

/-- The instrumented child-list walk, concatenating the children's logs. -/
def walkLogList (pkg : Option String) : List Node → List Frame → Registry →
    Except String (Registry × List Frame × List (Node × List Frame))
| [], st, R => Except.ok (R, st, [])
| c :: cs, st, R =>
  match walkLog pkg c st R with
  | Except.error e => Except.error e
  | Except.ok (R1, st1, L1) =>
    match walkLogList pkg cs st1 R1 with
    | Except.error e => Except.error e
    | Except.ok (R2, st2, L2) => Except.ok (R2, st2, L1 ++ L2)

end

/-- The flattened calls of all overloads stored under method name m of the
class registered at key f, when both exist. -/
def callsAt (R : Registry) (f m : String) : Option (List MethodCall) :=
  (lookupClass R f).bind (fun ci =>
    ((ci.methods.find? (fun p => p.1 = m)).map (fun p =>
      (p.2.map MethodInfo.calls).flatten)))

-- Concrete input trees used by witnesses and counterexamples.

/-- A leaf identifier node. -/
def jIdent (s : String) (l c : Nat) : Node := Node.mk ("identifier") [] [] l c s

/-- First duplicate unit: `class A { void m1() {} }`. -/
def dupM1 : Node := Node.mk ("method_declaration")
  [(("name"), jIdent ("m1") 1 7), (("type"), Node.mk ("void_type") [] [] 1 2 ("void"))]
  [] 1 2 ("void m1() \x7b\x7d")

/-- Second duplicate unit member: `void m2() {}`. -/
def dupM2 : Node := Node.mk ("method_declaration")
  [(("name"), jIdent ("m2") 4 7), (("type"), Node.mk ("void_type") [] [] 4 2 ("void"))]
  [] 4 2 ("void m2() \x7b\x7d")

/-- First declaration of class A, holding m1. -/
def dupClassA1 : Node := Node.mk ("class_declaration")
  [(("name"), jIdent ("A") 0 6)]
  [Node.mk ("class_body") [] [dupM1] 0 8 ("body1")] 0 0 ("class A v1")

/-- Second declaration of class A (same FQCN), holding m2. -/
def dupClassA2 : Node := Node.mk ("class_declaration")
  [(("name"), jIdent ("A") 3 6)]
  [Node.mk ("class_body") [] [dupM2] 3 8 ("body2")] 3 0 ("class A v2")

/-- A compilation unit declaring class A twice. -/
def dupRoot : Node := Node.mk ("program") [] [dupClassA1, dupClassA2] 0 0 ("dup unit")

/-- Sibling invocations `a();` then `b();` in one method body, in that source
order. -/
def ordInvA : Node := Node.mk ("method_invocation")
  [(("name"), jIdent ("a") 1 4)] [] 1 4 ("a()")

/-- The second invocation of the ordered pair. -/
def ordInvB : Node := Node.mk ("method_invocation")
  [(("name"), jIdent ("b") 2 4)] [] 2 4 ("b()")

/-- The method body block holding a(); b(); in source order. -/
def ordBody : Node := Node.mk ("block") [] [ordInvA, ordInvB] 0 11 ("calls")

/-- A method declaration whose body calls a() then b(). -/
def ordMethod : Node := Node.mk ("method_declaration")
  [(("name"), jIdent ("m") 0 5), (("type"), Node.mk ("void_type") [] [] 0 0 ("void"))]
  [ordBody] 0 0 ("void m()")

/-- The single invocation `x()` inside the nested method. -/
def nestX : Node := Node.mk ("method_invocation")
  [(("name"), jIdent ("x") 3 6)] [] 3 6 ("x()")

/-- The nested method `void inner() { x(); }` of the local class. -/
def nestInner : Node := Node.mk ("method_declaration")
  [(("name"), jIdent ("inner") 2 13), (("type"), Node.mk ("void_type") [] [] 2 8 ("void"))]
  [Node.mk ("block") [] [nestX] 2 21 ("inner body")] 2 8 ("void inner()")

/-- The local class `class L { void inner() { x(); } }` declared inside the
body of the enclosing method. -/
def nestL : Node := Node.mk ("class_declaration")
  [(("name"), jIdent ("L") 1 14)]
  [Node.mk ("class_body") [] [nestInner] 1 16 ("L body")] 1 8 ("class L")

/-- The enclosing method `void outer() { class L {...} }`. -/
def nestOuter : Node := Node.mk ("method_declaration")
  [(("name"), jIdent ("outer") 1 9), (("type"), Node.mk ("void_type") [] [] 1 4 ("void"))]
  [Node.mk ("block") [] [nestL] 1 17 ("outer body")] 1 4 ("void outer()")

/-- Class A holding the method outer, which lexically nests class L and its
method inner. -/
def nestA : Node := Node.mk ("class_declaration")
  [(("name"), jIdent ("A") 0 6)]
  [Node.mk ("class_body") [] [nestOuter] 0 8 ("A body")] 0 0 ("class A")

/-- The unit for the nested-declaration scenario. -/
def nestRoot : Node := Node.mk ("program") [] [nestA] 0 0 ("nest unit")

/-- The shared call record of x(), harvested from the nested method's body. -/
def nestXRec : MethodCall := MethodCall.mk ("x") none 3 6

/-- A well-formed unit: `package com.acme; class G {}`. -/
def goodRoot : Node := Node.mk ("program") []
  [Node.mk ("package_declaration")
    [(("name"), Node.mk ("scoped_identifier") [] [] 0 8 ("com.acme"))] [] 0 0 ("package"),
   Node.mk ("class_declaration") [(("name"), jIdent ("G") 2 6)] [] 2 0 ("class G")]
  0 0 ("good unit")

/-- The registry produced by indexing goodRoot alone. -/
def goodResult : Registry := Registry.mk [("com.acme")]
  [(("com.acme.G"), ClassInfo.mk ("G") ("com.acme.G") 2 0 [])]

/-- A top-level method declaration (no enclosing class) whose subtree contains
a class declaration C. -/
def topM : Node := Node.mk ("method_declaration")
  [(("name"), jIdent ("tm") 1 5)]
  [Node.mk ("class_declaration") [(("name"), jIdent ("C") 2 10)] [] 2 4 ("class C")]
  1 0 ("stray method")

/-- A malformed unit whose root directly holds the stray method. -/
def topRoot : Node := Node.mk ("program") [] [topM] 0 0 ("stray unit")

/-- The same unit with the stray method declaration removed. -/
def topRootWithout : Node := Node.mk ("program") [] [] 0 0 ("stray unit minus")

/-- A construction expression `new Foo(bar)`. -/
def newFooNode : Node := Node.mk ("object_creation_expression")
  [(("type"), Node.mk ("type_identifier") [] [] 5 8 ("Foo"))] [] 5 4 ("new Foo(bar)")

/-- A parameter with both type and name fields. -/
def paramFull : Node := Node.mk ("parameter")
  [(("type"), Node.mk ("type_identifier") [] [] 7 4 ("int")),
   (("name"), jIdent ("x") 7 8)] [] 7 4 ("int x")

/-- A parameter missing both its type and name fields. -/
def paramBare : Node := Node.mk ("parameter") [] [] 7 11 ("???")

/-- A constructor declaration with no name field and two parameters. -/
def ctorNode : Node := Node.mk ("constructor_declaration")
  [(("parameters"), Node.mk ("formal_parameters") [] [paramFull, paramBare] 7 3 ("(...)"))]
  [] 7 2 ("ctor")

-- Registry-level infrastructure lemmas.

theorem mem_classKeys_iff (R : Registry) (f : String) :
    f ∈ classKeys R ↔ (lookupClass R f).isSome := by
  simp [classKeys, lookupClass, List.find?_isSome, List.mem_map]

theorem lookupClass_mem (R : Registry) (f : String) (ci : ClassInfo)
    (h : lookupClass R f = some ci) : f ∈ classKeys R := by
  rw [mem_classKeys_iff, h]; rfl

theorem lookupClass_find_pair (R : Registry) (f : String) (ci : ClassInfo)
    (h : lookupClass R f = some ci) :
    R.classes.find? (fun p => p.1 = f) = some (f, ci) := by
  unfold lookupClass at h
  cases hf : R.classes.find? (fun p => p.1 = f) with
  | none => rw [hf] at h; simp at h
  | some q =>
      rw [hf] at h
      have hq := List.find?_some hf
      simp at hq h
      cases q with
      | mk a b =>
          simp at hq h
          simp [hq, h]

theorem find_eq_none_of_no_key (l : List (String × ClassInfo)) (f : String)
    (h : ∀ q ∈ l, q.1 ≠ f) : l.find? (fun p => p.1 = f) = none := by
  induction l with
  | nil => rfl
  | cons p t ih =>
      have hp := h p (by simp)
      rw [List.find?_cons_of_neg]
      · exact ih (fun q hq => h q (by simp [hq]))
      · simp [hp]

theorem update_id_of_no_key (l : List (String × ClassInfo)) (f : String) (ci : ClassInfo)
    (h : ∀ q ∈ l, q.1 ≠ f) :
    l.map (fun p => if p.1 = f then (p.1, ci) else p) = l := by
  induction l with
  | nil => rfl
  | cons p t ih =>
      have hp := h p (by simp)
      simp only [List.map_cons, if_neg hp]
      rw [ih (fun q hq => h q (by simp [hq]))]

theorem find_update_self (l : List (String × ClassInfo)) (f : String) (ci : ClassInfo)
    (h : (l.find? (fun p => p.1 = f)).isSome) :
    (l.map (fun p => if p.1 = f then (p.1, ci) else p)).find? (fun p => p.1 = f)
      = some (f, ci) := by
  induction l with
  | nil => simp at h
  | cons p t ih =>
      by_cases hp : p.1 = f
      · simp only [List.map_cons, if_pos hp]
        rw [List.find?_cons_of_pos _ (by simp [hp])]
        rw [hp]
      · rw [List.find?_cons_of_neg _ (by simp [hp])] at h
        simp only [List.map_cons, if_neg hp]
        rw [List.find?_cons_of_neg _ (by simp [hp])]
        exact ih h

theorem find_update_other (l : List (String × ClassInfo)) (f g : String) (ci : ClassInfo)
    (hg : g ≠ f) :
    (l.map (fun p => if p.1 = f then (p.1, ci) else p)).find? (fun p => p.1 = g)
      = l.find? (fun p => p.1 = g) := by
  induction l with
  | nil => rfl
  | cons p t ih =>
      by_cases hp : p.1 = f
      · have hpg : ¬ p.1 = g := by rw [hp]; exact fun hc => hg hc.symm
        simp only [List.map_cons, if_pos hp]
        rw [List.find?_cons_of_neg _ (by simp [hp]; exact fun hc => hg hc.symm)]
        rw [List.find?_cons_of_neg _ (by simp [hpg])]
        exact ih
      · simp only [List.map_cons, if_neg hp]
        by_cases hpg : p.1 = g
        · rw [List.find?_cons_of_pos _ (by simp [hpg]), List.find?_cons_of_pos _ (by simp [hpg])]
        · rw [List.find?_cons_of_neg _ (by simp [hpg]), List.find?_cons_of_neg _ (by simp [hpg])]
          exact ih

theorem lookupClass_updateClass_self (R : Registry) (f : String) (ci0 ci : ClassInfo)
    (h : lookupClass R f = some ci0) :
    lookupClass (updateClass R f ci) f = some ci := by
  unfold lookupClass updateClass
  rw [find_update_self]
  · rfl
  · unfold lookupClass at h
    cases hf : R.classes.find? (fun p => p.1 = f) with
    | none => rw [hf] at h; simp at h
    | some q => rfl

theorem lookupClass_updateClass_other (R : Registry) (f g : String) (ci : ClassInfo)
    (hg : g ≠ f) :
    lookupClass (updateClass R f ci) g = lookupClass R g := by
  unfold lookupClass updateClass
  rw [find_update_other _ _ _ _ hg]

theorem classKeys_updateClass (R : Registry) (f : String) (ci : ClassInfo) :
    classKeys (updateClass R f ci) = classKeys R := by
  unfold classKeys updateClass
  simp only [List.map_map]
  apply List.map_congr_left
  intro p _
  by_cases hp : p.1 = f <;> simp [hp]

theorem classKeys_eq_of_skel (R1 R : Registry)
    (h : R1.classes.map skelOf = R.classes.map skelOf) : classKeys R1 = classKeys R := by
  have hk := congrArg (List.map ClassSkel.key) h
  simpa [classKeys, List.map_map, Function.comp, skelOf] using hk

theorem classKeys_of_skel_append (R2 R : Registry) (new : List ClassSkel)
    (h : R2.classes.map skelOf = R.classes.map skelOf ++ new) :
    classKeys R2 = classKeys R ++ new.map ClassSkel.key := by
  have hk := congrArg (List.map ClassSkel.key) h
  simpa [classKeys, List.map_map, Function.comp, skelOf] using hk

theorem classKeys_registerClass_mem (R : Registry) (f s : String) (l c : Nat) :
    f ∈ classKeys (registerClass R f s l c) := by
  unfold registerClass
  split
  · assumption
  · simp [classKeys]

theorem registerClass_step (R : Registry) (f s : String) (l c : Nat)
    (hnd : List.Nodup (classKeys R)) :
    ∃ new, (registerClass R f s l c).classes.map skelOf = R.classes.map skelOf ++ new ∧
      (∀ e ∈ new, e = ClassSkel.mk f s f l c) ∧
      List.Nodup (classKeys (registerClass R f s l c)) := by
  unfold registerClass
  split
  · exact ⟨[], by simp, by simp, hnd⟩
  · rename_i hmem
    refine ⟨[ClassSkel.mk f s f l c], by simp [skelOf], by simp, ?_⟩
    simp only [classKeys, List.map_append, List.map_cons, List.map_nil]
    rw [List.nodup_append]
    refine ⟨hnd, List.nodup_singleton f, ?_⟩
    intro a ha hb
    simp at hb
    subst hb
    exact hmem ha

theorem map_skel_update (l : List (String × ClassInfo)) (f : String) (cls ci : ClassInfo)
    (hfind : l.find? (fun p => p.1 = f) = some (f, cls))
    (hnd : (l.map (fun p => p.1)).Nodup)
    (hsk : skelOf (f, ci) = skelOf (f, cls)) :
    (l.map (fun p => if p.1 = f then (p.1, ci) else p)).map skelOf = l.map skelOf := by
  induction l with
  | nil => simp at hfind
  | cons p t ih =>
      by_cases hp : p.1 = f
      · rw [List.find?_cons_of_pos _ (by simp [hp])] at hfind
        have hpe : p = (f, cls) := by simpa using hfind
        have hnf : ∀ q ∈ t, q.1 ≠ f := by
          intro q hq hqf
          have hnd2 := hnd
          simp only [List.map_cons, List.nodup_cons] at hnd2
          exact hnd2.1 (by rw [hp]; rw [← hqf]; exact List.mem_map_of_mem _ hq)
        simp only [List.map_cons, if_pos hp]
        rw [update_id_of_no_key t f ci hnf]
        have : skelOf (p.1, ci) = skelOf p := by
          rw [hpe]
          simpa using hsk
        rw [this]
      · rw [List.find?_cons_of_neg _ (by simp [hp])] at hfind
        have hnd2 : (t.map (fun p => p.1)).Nodup := by
          simp only [List.map_cons, List.nodup_cons] at hnd
          exact hnd.2
        simp only [List.map_cons, if_neg hp]
        rw [ih hfind hnd2]

theorem indexMethod_step (pkg : Option String) (n : Node) (st : List Frame) (R : Registry)
    (hg : st ≠ [] → fqcnOf pkg (stackNames st) ∈ classKeys R)
    (hnd : List.Nodup (classKeys R)) :
    ∃ R1, indexMethod pkg n st R = Except.ok R1 ∧
      R1.classes.map skelOf = R.classes.map skelOf := by
  by_cases hst : st = []
  · subst hst
    exact ⟨R, by simp [indexMethod], rfl⟩
  · have hmem := hg hst
    rw [mem_classKeys_iff] at hmem
    cases hlc : lookupClass R (fqcnOf pkg (stackNames st)) with
    | none => rw [hlc] at hmem; simp at hmem
    | some cls =>
        have heq : indexMethod pkg n st R =
            Except.ok (updateClass R (fqcnOf pkg (stackNames st))
              (ClassInfo.mk cls.simple_name cls.fqcn cls.line cls.col
                (setdefaultAppend cls.methods (extractMethodInfo n).name
                  (extractMethodInfo n)))) := by
          unfold indexMethod
          rw [if_neg hst, hlc]
        refine ⟨_, heq, ?_⟩
        unfold updateClass
        simp only []
        apply map_skel_update _ _ cls
        · exact lookupClass_find_pair R _ cls hlc
        · exact hnd
        · simp [skelOf]

theorem addPackage_classes (R : Registry) (p : String) :
    (addPackage R p).classes = R.classes := by
  unfold addPackage
  split <;> rfl

theorem NewOk_mono (pkg : Option String) (p1 p2 : List PathEntry) (e : ClassSkel)
    (hsub : ∀ q ∈ p1, q ∈ p2) (h : NewOk pkg p1 e) : NewOk pkg p2 e := by
  obtain ⟨q, hq, hr⟩ := h
  exact ⟨q, hsub q hq, hr⟩

theorem stackNames_append_frame (st : List Frame) (s : String) (l c : Nat) :
    stackNames (st ++ [(s, l, c)]) = stackNames st ++ [s] := by
  simp [stackNames]

mutual

theorem walk_master (pkg : Option String) : ∀ (n : Node) (st : List Frame) (R : Registry),
    (st ≠ [] → fqcnOf pkg (stackNames st) ∈ classKeys R) →
    List.Nodup (classKeys R) →
    ∃ R2 new, walkAndIndex pkg n st R = Except.ok (R2, st) ∧
      R2.classes.map skelOf = R.classes.map skelOf ++ new ∧
      (∀ e ∈ new, NewOk pkg (declPaths n (stackNames st)) e) ∧
      List.Nodup (classKeys R2)
| Node.mk t fs cs l co tx, st, R, hg, hnd => by
  by_cases hcl : (Node.mk t fs cs l co tx).type = "class_declaration" ∧
      (childByFieldName (Node.mk t fs cs l co tx) ("name")).isSome
  · obtain ⟨nn, hnn⟩ := Option.isSome_iff_exists.mp hcl.2
    obtain ⟨new1, hsk1, hnew1, hnd1⟩ :=
      registerClass_step R
        (fqcnOf pkg (stackNames (st ++ [(nn.text, l, co)]))) nn.text l co hnd
    obtain ⟨R2, new2, heq2, hsk2, hnew2, hnd2⟩ :=
      walkList_master pkg cs (st ++ [(nn.text, l, co)])
        (registerClass R (fqcnOf pkg (stackNames (st ++ [(nn.text, l, co)])))
          nn.text l co)
        (fun _ => classKeys_registerClass_mem _ _ _ _ _) hnd1
    refine ⟨R2, new1 ++ new2, ?_, ?_, ?_, hnd2⟩
    · simp only [walkAndIndex]
      rw [dif_pos hcl]
      simp only [hnn, Option.get_some, Node.line, Node.col]
      rw [heq2]
      simp [List.dropLast_concat]
    · rw [hsk2, hsk1, List.append_assoc]
    · intro e he
      rcases List.mem_append.mp he with h1 | h2
      · have he1 := hnew1 e h1
        refine ⟨PathEntry.mk (stackNames st) nn.text l co, ?_, ?_⟩
        · simp only [declPaths]
          rw [dif_pos hcl]
          simp only [hnn, Option.get_some, Node.line, Node.col]
          exact List.mem_cons_self _ _
        · subst he1
          refine ⟨?_, rfl, rfl, rfl, rfl⟩
          rw [stackNames_append_frame]
      · have he2 := hnew2 e h2
        apply NewOk_mono pkg _ _ e ?_ he2
        intro q hq
        simp only [declPaths]
        rw [dif_pos hcl]
        simp only [hnn, Option.get_some, Node.line, Node.col]
        apply List.mem_cons_of_mem
        rw [stackNames_append_frame] at hq
        exact hq
  · by_cases hm : (Node.mk t fs cs l co tx).type = "method_declaration" ∨
        (Node.mk t fs cs l co tx).type = "constructor_declaration"
    · obtain ⟨R1, hR1, hsk1⟩ := indexMethod_step pkg (Node.mk t fs cs l co tx) st R hg hnd
      have hkeys1 : classKeys R1 = classKeys R := classKeys_eq_of_skel _ _ hsk1
      have hg1 : st ≠ [] → fqcnOf pkg (stackNames st) ∈ classKeys R1 := by
        intro hne; rw [hkeys1]; exact hg hne
      obtain ⟨R2, new2, heq2, hsk2, hnew2, hnd2⟩ :=
        walkList_master pkg cs st R1 hg1 (by rw [hkeys1]; exact hnd)
      refine ⟨R2, new2, ?_, ?_, ?_, hnd2⟩
      · simp only [walkAndIndex, dif_neg hcl, if_pos hm, hR1, heq2]
      · rw [hsk2, hsk1]
      · intro e he
        have := hnew2 e he
        apply NewOk_mono pkg _ _ e ?_ this
        intro q hq
        simp only [declPaths, dif_neg hcl]
        exact hq
    · obtain ⟨R2, new2, heq2, hsk2, hnew2, hnd2⟩ :=
        walkList_master pkg cs st R hg hnd
      refine ⟨R2, new2, ?_, ?_, ?_, hnd2⟩
      · simp only [walkAndIndex, dif_neg hcl, if_neg hm, heq2]
      · exact hsk2
      · intro e he
        have := hnew2 e he
        apply NewOk_mono pkg _ _ e ?_ this
        intro q hq
        simp only [declPaths, dif_neg hcl]
        exact hq

theorem walkList_master (pkg : Option String) : ∀ (ns : List Node) (st : List Frame)
    (R : Registry),
    (st ≠ [] → fqcnOf pkg (stackNames st) ∈ classKeys R) →
    List.Nodup (classKeys R) →
    ∃ R2 new, walkAndIndexList pkg ns st R = Except.ok (R2, st) ∧
      R2.classes.map skelOf = R.classes.map skelOf ++ new ∧
      (∀ e ∈ new, NewOk pkg (declPathsList ns (stackNames st)) e) ∧
      List.Nodup (classKeys R2)
| [], st, R, hg, hnd => ⟨R, [], by simp [walkAndIndexList], by simp, by simp, hnd⟩
| c :: csx, st, R, hg, hnd => by
  obtain ⟨R1, new1, heq1, hsk1, hnew1, hnd1⟩ := walk_master pkg c st R hg hnd
  have hkeys1 : classKeys R1 = classKeys R ++ new1.map ClassSkel.key :=
    classKeys_of_skel_append _ _ _ hsk1
  have hg1 : st ≠ [] → fqcnOf pkg (stackNames st) ∈ classKeys R1 := by
    intro hne; rw [hkeys1]; exact List.mem_append_left _ (hg hne)
  obtain ⟨R2, new2, heq2, hsk2, hnew2, hnd2⟩ := walkList_master pkg csx st R1 hg1 hnd1
  refine ⟨R2, new1 ++ new2, ?_, ?_, ?_, hnd2⟩
  · simp only [walkAndIndexList, heq1, heq2]
  · rw [hsk2, hsk1, List.append_assoc]
  · intro e he
    rcases List.mem_append.mp he with h1 | h2
    · apply NewOk_mono pkg _ _ e ?_ (hnew1 e h1)
      intro q hq
      simp only [declPathsList]
      exact List.mem_append_left _ hq
    · apply NewOk_mono pkg _ _ e ?_ (hnew2 e h2)
      intro q hq
      simp only [declPathsList]
      exact List.mem_append_right _ hq

end

mutual

theorem walk_stack (pkg : Option String) : ∀ (n : Node) (st : List Frame) (R R2 : Registry)
    (st2 : List Frame), walkAndIndex pkg n st R = Except.ok (R2, st2) → st2 = st
| Node.mk t fs cs l co tx, st, R, R2, st2, h => by
  by_cases hcl : (Node.mk t fs cs l co tx).type = "class_declaration" ∧
      (childByFieldName (Node.mk t fs cs l co tx) ("name")).isSome
  · obtain ⟨nn, hnn⟩ := Option.isSome_iff_exists.mp hcl.2
    simp only [walkAndIndex] at h
    rw [dif_pos hcl] at h
    simp only [hnn, Option.get_some, Node.line, Node.col] at h
    cases hw : walkAndIndexList pkg cs (st ++ [(nn.text, l, co)])
        (registerClass R (fqcnOf pkg (stackNames (st ++ [(nn.text, l, co)])))
          nn.text l co) with
    | error e => rw [hw] at h; simp at h
    | ok p =>
        rw [hw] at h
        obtain ⟨R1x, st1x⟩ := p
        simp at h
        have hst1 : st1x = st ++ [(nn.text, l, co)] := walkList_stack pkg cs _ _ _ _ hw
        rw [← h.2, hst1, List.dropLast_concat]
  · simp only [walkAndIndex] at h
    rw [dif_neg hcl] at h
    cases him : (if (Node.mk t fs cs l co tx).type = "method_declaration" ∨
        (Node.mk t fs cs l co tx).type = "constructor_declaration"
      then indexMethod pkg (Node.mk t fs cs l co tx) st R else Except.ok R) with
    | error e => rw [him] at h; simp at h
    | ok R1 =>
        rw [him] at h
        simp only [] at h
        exact walkList_stack pkg cs st R1 R2 st2 h

theorem walkList_stack (pkg : Option String) : ∀ (ns : List Node) (st : List Frame)
    (R R2 : Registry) (st2 : List Frame),
    walkAndIndexList pkg ns st R = Except.ok (R2, st2) → st2 = st
| [], st, R, R2, st2, h => by
    simp only [walkAndIndexList] at h
    simp at h
    exact h.2.symm
| c :: csx, st, R, R2, st2, h => by
    simp only [walkAndIndexList] at h
    cases hw : walkAndIndex pkg c st R with
    | error e => rw [hw] at h; simp at h
    | ok p =>
        rw [hw] at h
        obtain ⟨R1x, st1x⟩ := p
        simp only [] at h
        have hst1 : st1x = st := walk_stack pkg c st R R1x st1x hw
        rw [← hst1]
        exact walkList_stack pkg csx st1x R1x R2 st2 h

end

mutual

theorem walkLog_eq (pkg : Option String) : ∀ (n : Node) (st : List Frame) (R : Registry),
    walkLog pkg n st R =
      (walkAndIndex pkg n st R).map (fun p => (p.1, p.2, specVisits n st))
| Node.mk t fs cs l co tx, st, R => by
  by_cases hcl : (Node.mk t fs cs l co tx).type = "class_declaration" ∧
      (childByFieldName (Node.mk t fs cs l co tx) ("name")).isSome
  · obtain ⟨nn, hnn⟩ := Option.isSome_iff_exists.mp hcl.2
    simp only [walkLog, walkAndIndex, specVisits]
    rw [dif_pos hcl, dif_pos hcl, dif_pos hcl]
    simp only [hnn, Option.get_some, Node.line, Node.col]
    rw [walkLogList_eq pkg cs (st ++ [(nn.text, l, co)])
      (registerClass R (fqcnOf pkg (stackNames (st ++ [(nn.text, l, co)]))) nn.text l co)]
    cases hw : walkAndIndexList pkg cs (st ++ [(nn.text, l, co)])
        (registerClass R (fqcnOf pkg (stackNames (st ++ [(nn.text, l, co)])))
          nn.text l co) with
    | error e => simp [Except.map]
    | ok p => obtain ⟨R2x, st2x⟩ := p; simp [Except.map]
  · simp only [walkLog, walkAndIndex, specVisits]
    rw [dif_neg hcl, dif_neg hcl, dif_neg hcl]
    cases him : (if (Node.mk t fs cs l co tx).type = "method_declaration" ∨
        (Node.mk t fs cs l co tx).type = "constructor_declaration"
      then indexMethod pkg (Node.mk t fs cs l co tx) st R else Except.ok R) with
    | error e => simp [Except.map]
    | ok R1 =>
        simp only []
        rw [walkLogList_eq pkg cs st R1]
        cases hw : walkAndIndexList pkg cs st R1 with
        | error e => simp [Except.map]
        | ok p => obtain ⟨R2x, st2x⟩ := p; simp [Except.map]

theorem walkLogList_eq (pkg : Option String) : ∀ (ns : List Node) (st : List Frame)
    (R : Registry),
    walkLogList pkg ns st R =
      (walkAndIndexList pkg ns st R).map (fun p => (p.1, p.2, specVisitsList ns st))
| [], st, R => by simp [walkLogList, walkAndIndexList, specVisitsList, Except.map]
| c :: csx, st, R => by
  simp only [walkLogList, walkAndIndexList, specVisitsList]
  rw [walkLog_eq pkg c st R]
  cases hw : walkAndIndex pkg c st R with
  | error e => simp [Except.map]
  | ok p =>
      obtain ⟨R1x, st1x⟩ := p
      have hst1 : st1x = st := walk_stack pkg c st R R1x st1x hw
      subst hst1
      simp only [Except.map]
      rw [walkLogList_eq pkg csx st1x R1x]
      cases hw2 : walkAndIndexList pkg csx st1x R1x with
      | error e => simp [Except.map]
      | ok q => obtain ⟨R2x, st2x⟩ := q; simp [Except.map]

end

mutual

theorem mem_mirrorRecords (c : MethodCall) : ∀ n : Node,
    c ∈ mirrorRecords n ↔ ∃ m, m ∈ subtreeNodes n ∧ c ∈ nodeRecords m
| Node.mk t fs cs l co tx => by
    simp only [mirrorRecords, subtreeNodes, List.mem_append, List.mem_cons]
    rw [mem_mirrorRecordsList c cs]
    constructor
    · rintro (h | ⟨m, hm, hc⟩)
      · exact ⟨Node.mk t fs cs l co tx, Or.inl rfl, h⟩
      · exact ⟨m, Or.inr hm, hc⟩
    · rintro ⟨m, hm | hm, hc⟩
      · rw [hm] at hc; exact Or.inl hc
      · exact Or.inr ⟨m, hm, hc⟩

theorem mem_mirrorRecordsList (c : MethodCall) : ∀ ns : List Node,
    c ∈ mirrorRecordsList ns ↔ ∃ m, m ∈ subtreeNodesList ns ∧ c ∈ nodeRecords m
| [] => by simp [mirrorRecordsList, subtreeNodesList]
| a :: as => by
    simp only [mirrorRecordsList, subtreeNodesList, List.mem_append]
    rw [mem_mirrorRecords c a, mem_mirrorRecordsList c as]
    constructor
    · rintro (⟨m, hm, hc⟩ | ⟨m, hm, hc⟩)
      · exact ⟨m, Or.inr hm, hc⟩
      · exact ⟨m, Or.inl hm, hc⟩
    · rintro ⟨m, hm | hm, hc⟩
      · exact Or.inr ⟨m, hm, hc⟩
      · exact Or.inl ⟨m, hm, hc⟩

end

mutual

theorem subtree_trans : ∀ (n m : Node), m ∈ subtreeNodes n →
    ∀ k, k ∈ subtreeNodes m → k ∈ subtreeNodes n
| Node.mk t fs cs l co tx, m, hm, k, hk => by
    simp only [subtreeNodes, List.mem_cons] at hm
    rcases hm with hm | hm
    · rw [hm] at hk; exact hk
    · have hrec := subtreeList_trans cs m hm k hk
      simp only [subtreeNodes, List.mem_cons]
      exact Or.inr hrec

theorem subtreeList_trans : ∀ (ns : List Node) (m : Node), m ∈ subtreeNodesList ns →
    ∀ k, k ∈ subtreeNodes m → k ∈ subtreeNodesList ns
| [], m, hm, k, hk => by simp [subtreeNodesList] at hm
| a :: as, m, hm, k, hk => by
    simp only [subtreeNodesList, List.mem_append] at hm ⊢
    rcases hm with hm | hm
    · exact Or.inl (subtree_trans a m hm k hk)
    · exact Or.inr (subtreeList_trans as m hm k hk)

end

theorem filterMap_guard {α β : Type} (c : α → Prop) [DecidablePred c] (f : α → β)
    (l : List α) :
    l.filterMap (fun p => if c p then some (f p) else none)
      = (l.filter (fun p => decide (c p))).map f := by
  induction l with
  | nil => rfl
  | cons x xs ih => by_cases hx : c x <;> simp [hx, ih]

-- Claim theorems.

/-- Registry holding one already-registered class A with no methods yet. -/
def c1wReg : Registry := Registry.mk [] [(("A"), ClassInfo.mk ("A") ("A") 0 0 [])]

/-- The registry produced by indexing dupRoot: one entry A whose methods dict
holds m1 from the first declaration and m2 from the second. -/
def dupResult : Registry := Registry.mk []
  [(("A"), ClassInfo.mk ("A") ("A") 0 0
    [(("m1"), [MethodInfo.mk ("m1") [] (some ("void")) 1 2 []]),
     (("m2"), [MethodInfo.mk ("m2") [] (some ("void")) 4 2 []])])]

/-- C1 (amended): re-encountering an already-registered FQCN does not raise
and keeps the existing ClassInfo as the registered entity (registration is a
no-op, and the updated entry retains the original identity fields), but the
methods of the second occurrence are NOT lost: indexing a method under that
FQCN appends its MethodInfo to the existing ClassInfo's overload lists, and
entries under other FQCNs are untouched. -/
theorem claim1_thm (pkg : Option String) (n : Node) (st : List Frame) (R : Registry)
    (ci : ClassInfo) (s : String) (l c : Nat)
    (hst : st ≠ [])
    (hf : lookupClass R (fqcnOf pkg (stackNames st)) = some ci) :
    registerClass R (fqcnOf pkg (stackNames st)) s l c = R ∧
    indexMethod pkg n st R =
      Except.ok (updateClass R (fqcnOf pkg (stackNames st))
        (ClassInfo.mk ci.simple_name ci.fqcn ci.line ci.col
          (setdefaultAppend ci.methods (extractMethodInfo n).name (extractMethodInfo n)))) ∧
    lookupClass (updateClass R (fqcnOf pkg (stackNames st))
        (ClassInfo.mk ci.simple_name ci.fqcn ci.line ci.col
          (setdefaultAppend ci.methods (extractMethodInfo n).name (extractMethodInfo n))))
      (fqcnOf pkg (stackNames st)) =
      some (ClassInfo.mk ci.simple_name ci.fqcn ci.line ci.col
        (setdefaultAppend ci.methods (extractMethodInfo n).name (extractMethodInfo n))) ∧
    ∀ g, g ≠ fqcnOf pkg (stackNames st) →
      lookupClass (updateClass R (fqcnOf pkg (stackNames st))
          (ClassInfo.mk ci.simple_name ci.fqcn ci.line ci.col
            (setdefaultAppend ci.methods (extractMethodInfo n).name (extractMethodInfo n))))
        g = lookupClass R g := by
  have hmem := lookupClass_mem R _ ci hf
  refine ⟨?_, ?_, ?_, ?_⟩
  · unfold registerClass
    rw [if_pos hmem]
  · unfold indexMethod
    rw [if_neg hst, hf]
  · exact lookupClass_updateClass_self R _ ci _ hf
  · intro g hg
    exact lookupClass_updateClass_other R _ g _ hg

/-- Witness for claim1_thm at a concrete duplicate registration. -/
theorem claim1_witness :
    registerClass c1wReg (fqcnOf none (stackNames [(("A"), 0, 0)])) ("A") 3 0 = c1wReg :=
  (claim1_thm none dupM2 [(("A"), 0, 0)] c1wReg (ClassInfo.mk ("A") ("A") 0 0 [])
    ("A") 3 0 (by decide) rfl).1

/-- C1 counterexample: indexing a unit that declares class A twice yields a
registry in which the methods of the second occurrence (m2) HAVE been merged
into the original ClassInfo for A, so they are not lost and the original
ClassInfo's methods dict did not stay unchanged. -/
theorem claim1_counterexample :
    indexSource dupRoot emptyRegistry = Except.ok dupResult ∧
    (lookupClass dupResult ("A")).map (fun ci => ci.methods.map (fun p => p.1))
      = some [("m1"), ("m2")] := by
  constructor
  · simp [indexSource, findPackage, walkAndIndex, walkAndIndexList, indexMethod,
      extractMethodInfo, collectCallsInMethod_eq, mirrorRecords, mirrorRecordsList,
      nodeRecords, registerClass, setdefaultAppend, updateClass, lookupClass, classKeys,
      stackNames, fqcnOf, childByFieldName, addPackage, emptyRegistry, dupRoot, dupClassA1,
      dupClassA2, dupM1, dupM2, jIdent, dupResult,
      Node.type, Node.fields, Node.children, Node.line, Node.col, Node.text,
      String.intercalate, String.intercalate.go]
  · rfl

/-- C2: evaluation of the collector at the failing input.  A body containing
the sibling invocations a(); b(); in that source order yields the records in
the order b, a — the LIFO worklist visits siblings right to left — whereas the
pre-order (source occurrence order) required by the claim is a, b. -/
theorem claim2_thm :
    collectCallsInMethod ordMethod =
      [MethodCall.mk ("b") none 2 4, MethodCall.mk ("a") none 1 4] ∧
    preRecords ordMethod =
      [MethodCall.mk ("a") none 1 4, MethodCall.mk ("b") none 2 4] := by
  constructor
  · simp [collectCallsInMethod_eq, mirrorRecords, mirrorRecordsList, nodeRecords,
      childByFieldName, ordMethod, ordBody, ordInvA, ordInvB, jIdent,
      Node.type, Node.fields, Node.children, Node.line, Node.col, Node.text]
  · simp [preRecords, preRecordsList, nodeRecords, childByFieldName, ordMethod, ordBody,
      ordInvA, ordInvB, jIdent,
      Node.type, Node.fields, Node.children, Node.line, Node.col, Node.text]

/-- C3 (amended): a MethodInfo's calls list contains exactly the records of
the invocation and construction nodes in that declaration's own full subtree;
hence records from a disjoint declaration's body never appear, but when one
method-like declaration is nested inside another's subtree, every record
collected for the inner declaration also appears in the outer declaration's
calls. -/
theorem claim3_thm (m : Node) (c : MethodCall) :
    (c ∈ collectCallsInMethod m ↔ ∃ k, k ∈ subtreeNodes m ∧ c ∈ nodeRecords k) ∧
    (∀ m2, m2 ∈ subtreeNodes m → ∀ c2, c2 ∈ collectCallsInMethod m2 →
      c2 ∈ collectCallsInMethod m) := by
  constructor
  · rw [collectCallsInMethod_eq]
    exact mem_mirrorRecords c m
  · intro m2 hm2 c2 hc2
    rw [collectCallsInMethod_eq] at hc2 ⊢
    rw [mem_mirrorRecords] at hc2 ⊢
    obtain ⟨k, hk, hck⟩ := hc2
    exact ⟨k, subtree_trans m m2 hm2 k hk, hck⟩

/-- Witness for claim3_thm: the record of x() collected for the nested method
inner also lands in the enclosing method outer's calls. -/
theorem claim3_witness : nestXRec ∈ collectCallsInMethod nestOuter :=
  (claim3_thm nestOuter nestXRec).2 nestInner
    (by simp [subtreeNodes, subtreeNodesList, nestOuter, nestL, nestInner, nestX, jIdent,
      Node.children])
    nestXRec
    (by rw [collectCallsInMethod_eq]
        simp [mirrorRecords, mirrorRecordsList, nodeRecords, childByFieldName, nestInner,
          nestX, nestXRec, jIdent,
          Node.type, Node.fields, Node.children, Node.line, Node.col, Node.text])

/-- C3 counterexample: after indexing nestRoot, the same record of x() —
located in the body of A.L's method inner — appears both in the calls of
A.outer and in the calls of A.L.inner, because inner's body lies inside
outer's subtree. -/
theorem claim3_counterexample :
    (indexSource nestRoot emptyRegistry).toOption.bind (fun R => callsAt R ("A") ("outer"))
      = some [nestXRec] ∧
    (indexSource nestRoot emptyRegistry).toOption.bind
        (fun R => callsAt R ("A.L") ("inner"))
      = some [nestXRec] := by
  have hrun : indexSource nestRoot emptyRegistry =
      Except.ok (Registry.mk []
        [(("A"), ClassInfo.mk ("A") ("A") 0 0
          [(("outer"), [MethodInfo.mk ("outer") [] (some ("void")) 1 4
            [MethodCall.mk ("x") none 3 6]])]),
         (("A.L"), ClassInfo.mk ("L") ("A.L") 1 8
          [(("inner"), [MethodInfo.mk ("inner") [] (some ("void")) 2 8
            [MethodCall.mk ("x") none 3 6]])])]) := by
    simp [indexSource, findPackage, walkAndIndex, walkAndIndexList, indexMethod,
      extractMethodInfo, collectCallsInMethod_eq, mirrorRecords, mirrorRecordsList,
      nodeRecords, registerClass, setdefaultAppend, updateClass, lookupClass, classKeys,
      stackNames, fqcnOf, childByFieldName, addPackage, emptyRegistry, nestRoot, nestA,
      nestOuter, nestL, nestInner, nestX, jIdent,
      Node.type, Node.fields, Node.children, Node.line, Node.col, Node.text,
      String.intercalate, String.intercalate.go]
  rw [hrun]
  constructor <;> rfl

/-- C4: evaluation of the batch at the failing input.  A failing first file
makes the except handler itself raise NameError (directory_scanning.py prints
to sys.stderr but never imports sys), aborting the whole batch, so the
remaining good file is never indexed — even though that same file indexes
fine when the batch contains no failure. -/
theorem claim4_thm :
    indexDirectory [(("Bad.java"), none), (("Good.java"), some goodRoot)] emptyRegistry
      = Except.error ("NameError: name sys is not defined") ∧
    indexDirectory [(("Good.java"), some goodRoot)] emptyRegistry
      = Except.ok goodResult := by
  constructor
  · rfl
  · have hrun : indexSource goodRoot emptyRegistry = Except.ok goodResult := by
      simp [indexSource, findPackage, walkAndIndex, walkAndIndexList, indexMethod,
        extractMethodInfo, collectCallsInMethod_eq, mirrorRecords, mirrorRecordsList,
        nodeRecords, registerClass, setdefaultAppend, updateClass, lookupClass, classKeys,
        stackNames, fqcnOf, childByFieldName, addPackage, emptyRegistry, goodRoot,
        goodResult, jIdent,
        Node.type, Node.fields, Node.children, Node.line, Node.col, Node.text,
        String.intercalate, String.intercalate.go]
    simp [indexDirectory, hrun]

theorem indexSource_master (root : Node) (R : Registry)
    (hnd : List.Nodup (classKeys R)) :
    ∃ R2 new, indexSource root R = Except.ok R2 ∧
      R2.classes.map skelOf = R.classes.map skelOf ++ new ∧
      (∀ e ∈ new, NewOk (findPackage root) (declPaths root []) e) ∧
      List.Nodup (classKeys R2) := by
  have hcls : (match findPackage root with
      | some p => if p = "" then R else addPackage R p
      | none => R).classes = R.classes := by
    cases hfp : findPackage root with
    | none => rfl
    | some p =>
        simp only []
        split
        · rfl
        · exact addPackage_classes R p
  have hk1 : classKeys (match findPackage root with
      | some p => if p = "" then R else addPackage R p
      | none => R) = classKeys R := by
    unfold classKeys
    rw [hcls]
  obtain ⟨R2, new, heq, hsk, hnew, hnd2⟩ :=
    walk_master (findPackage root) root []
      (match findPackage root with
       | some p => if p = "" then R else addPackage R p
       | none => R) (fun hc => absurd rfl hc) (by rw [hk1]; exact hnd)
  refine ⟨R2, new, ?_, ?_, ?_, hnd2⟩
  · simp only [indexSource]
    rw [heq]
  · rw [hsk, hcls]
  · intro e he
    exact hnew e he

/-- C5: indexing any unit into a registry whose keys are distinct keeps keys
distinct (each FQCN keys exactly one ClassInfo), and every class newly
registered for this unit has fqcn equal to its map key, which is the
package-prefixed dot-join of the simple names of its lexically enclosing
class declarations plus its own simple name, outer-to-inner, with simple name
and location taken from that class declaration. -/
theorem claim5_thm (root : Node) (R : Registry) (hnd : List.Nodup (classKeys R)) :
    ∃ R2, indexSource root R = Except.ok R2 ∧ List.Nodup (classKeys R2) ∧
      ∀ p ∈ R2.classes, p.1 ∉ classKeys R →
        ∃ q ∈ declPaths root [],
          p.1 = fqcnOf (findPackage root) (q.enclosing ++ [q.simple]) ∧
          p.2.fqcn = p.1 ∧ p.2.simple_name = q.simple ∧
          p.2.line = q.line ∧ p.2.col = q.col := by
  obtain ⟨R2, new, heq, hsk, hnew, hnd2⟩ := indexSource_master root R hnd
  refine ⟨R2, heq, hnd2, ?_⟩
  intro p hp hkey
  have hm : skelOf p ∈ R2.classes.map skelOf := List.mem_map_of_mem skelOf hp
  rw [hsk] at hm
  rcases List.mem_append.mp hm with hold | hnewm
  · exfalso
    obtain ⟨p0, hp0, hsp⟩ := List.mem_map.mp hold
    have hk : p0.1 = p.1 := by
      have := congrArg ClassSkel.key hsp
      simpa [skelOf] using this
    exact hkey (hk ▸ List.mem_map_of_mem (fun p => p.1) hp0)
  · have hok := hnew (skelOf p) hnewm
    obtain ⟨q, hq, e1, e2, e3, e4, e5⟩ := hok
    simp only [skelOf] at e1 e2 e3 e4 e5
    exact ⟨q, hq, e1, by rw [e2, e1], e3, e4, e5⟩

/-- Witness for claim5_thm: the package-bearing unit goodRoot indexed into the
empty registry. -/
theorem claim5_witness :
    ∃ R2, indexSource goodRoot emptyRegistry = Except.ok R2 ∧
      List.Nodup (classKeys R2) ∧
      ∀ p ∈ R2.classes, p.1 ∉ classKeys emptyRegistry →
        ∃ q ∈ declPaths goodRoot [],
          p.1 = fqcnOf (findPackage goodRoot) (q.enclosing ++ [q.simple]) ∧
          p.2.fqcn = p.1 ∧ p.2.simple_name = q.simple ∧
          p.2.line = q.line ∧ p.2.col = q.col :=
  claim5_thm goodRoot emptyRegistry (by decide)

/-- C6: under the walk invariant (the FQCN of a non-empty incoming stack is
already registered, keys distinct), the walk of any node returns the class
stack exactly as it received it — every pushed frame is popped at the end of
exactly that declaration's subtree — and the instrumented walk shows that
every node is visited with the stack equal to the chain of frames of its
lexically enclosing named class declarations, outer-to-inner. -/
theorem claim6_thm (pkg : Option String) (n : Node) (st : List Frame) (R : Registry)
    (hg : st ≠ [] → fqcnOf pkg (stackNames st) ∈ classKeys R)
    (hnd : List.Nodup (classKeys R)) :
    ∃ R2, walkAndIndex pkg n st R = Except.ok (R2, st) ∧
      walkLog pkg n st R = Except.ok (R2, st, specVisits n st) := by
  obtain ⟨R2, new, heq, _, _, _⟩ := walk_master pkg n st R hg hnd
  refine ⟨R2, heq, ?_⟩
  rw [walkLog_eq, heq]
  rfl

/-- Witness for claim6_thm at nestRoot from an empty stack and registry. -/
theorem claim6_witness :
    ∃ R2, walkAndIndex none nestRoot [] emptyRegistry = Except.ok (R2, []) ∧
      walkLog none nestRoot [] emptyRegistry =
        Except.ok (R2, [], specVisits nestRoot []) :=
  claim6_thm none nestRoot [] emptyRegistry (fun hc => absurd rfl hc) (by decide)

/-- C7 (amended): a method-like declaration met with an empty class stack is
skipped without error and without creating any record — the method extractor
returns the registry unchanged — but the walk still recurses into the
declaration's children, so class declarations nested below it can still
register entries (hence the registry is not necessarily as if the declaration
were absent). -/
theorem claim7_thm (pkg : Option String) (n : Node) (R : Registry)
    (h : n.type = ("method_declaration") ∨ n.type = ("constructor_declaration")) :
    indexMethod pkg n [] R = Except.ok R ∧
    walkAndIndex pkg n [] R = walkAndIndexList pkg n.children [] R := by
  have hid : indexMethod pkg n [] R = Except.ok R := by
    simp [indexMethod]
  refine ⟨hid, ?_⟩
  have hncl : ¬ (n.type = "class_declaration" ∧ (childByFieldName n ("name")).isSome) := by
    rintro ⟨hc, _⟩
    rcases h with hm | hm <;> rw [hm] at hc <;> simp at hc
  cases n with
  | mk t fs cs l co tx =>
      simp only [walkAndIndex]
      rw [dif_neg hncl, if_pos h, hid]
      simp [Node.children]

/-- Witness for claim7_thm at the concrete stray method. -/
theorem claim7_witness :
    indexMethod none topM [] emptyRegistry = Except.ok emptyRegistry ∧
    walkAndIndex none topM [] emptyRegistry =
      walkAndIndexList none topM.children [] emptyRegistry :=
  claim7_thm none topM emptyRegistry (Or.inl rfl)

/-- C7 counterexample: indexing the unit whose root holds a stray method
declaration containing class C registers C, while the same unit without that
declaration produces an empty registry — the registry is NOT the same as if
the skipped declaration had not been present. -/
theorem claim7_counterexample :
    indexSource topRoot emptyRegistry =
      Except.ok (Registry.mk [] [(("C"), ClassInfo.mk ("C") ("C") 2 4 [])]) ∧
    indexSource topRootWithout emptyRegistry = Except.ok (Registry.mk [] []) := by
  constructor
  · simp [indexSource, findPackage, walkAndIndex, walkAndIndexList, indexMethod,
      extractMethodInfo, collectCallsInMethod_eq, mirrorRecords, mirrorRecordsList,
      nodeRecords, registerClass, setdefaultAppend, updateClass, lookupClass, classKeys,
      stackNames, fqcnOf, childByFieldName, addPackage, emptyRegistry, topRoot, topM,
      jIdent, Node.type, Node.fields, Node.children, Node.line, Node.col, Node.text,
      String.intercalate, String.intercalate.go]
  · simp [indexSource, findPackage, walkAndIndex, walkAndIndexList, indexMethod,
      childByFieldName, emptyRegistry, topRootWithout,
      Node.type, Node.fields, Node.children, Node.line, Node.col, Node.text]

/-- C8: processing a construction expression with a type field appends exactly
one call record whose name combines the fixed constructor tag with the
constructed type's text (data-distinguishable from plain invocation names),
whose receiver is absent — a value distinct from the empty string — and whose
location is the expression's zero-based start point. -/
theorem claim8_thm (n tn : Node) (rest : List Node) (acc : List MethodCall)
    (h1 : n.type = ("object_creation_expression"))
    (h2 : childByFieldName n ("type") = some tn) :
    nodeRecords n = [MethodCall.mk ("<init:" ++ tn.text ++ ">") none n.line n.col] ∧
    collectLoop (n :: rest) acc =
      collectLoop (n.children.reverse ++ rest)
        (acc ++ [MethodCall.mk ("<init:" ++ tn.text ++ ">") none n.line n.col]) ∧
    (MethodCall.mk ("<init:" ++ tn.text ++ ">") none n.line n.col).receiver = none ∧
    (none : Option String) ≠ some "" := by
  have hrec : nodeRecords n =
      [MethodCall.mk ("<init:" ++ tn.text ++ ">") none n.line n.col] := by
    unfold nodeRecords
    rw [h1, h2]
    simp
  refine ⟨hrec, ?_, rfl, by simp⟩
  simp only [collectLoop]
  rw [hrec]

/-- Witness for claim8_thm at `new Foo(bar)`. -/
theorem claim8_witness :
    nodeRecords newFooNode =
      [MethodCall.mk
        ("<init:" ++ (Node.mk ("type_identifier") [] [] 5 8 ("Foo")).text ++ ">")
        none newFooNode.line newFooNode.col] :=
  (claim8_thm newFooNode (Node.mk ("type_identifier") [] [] 5 8 ("Foo")) [] [] rfl rfl).1

/-- C9: the extractor records the name field's text with "<anonymous>" as the
placeholder when the name field is absent; omits the return type for
constructor declarations; and builds params with one "<type> <name>" token per
child of the parameters field whose kind is "parameter", substituting "?" for
a missing type field and "param" for a missing name field. -/
theorem claim9_thm (n : Node)
    (h : n.type = ("method_declaration") ∨ n.type = ("constructor_declaration")) :
    (extractMethodInfo n).name =
      ((childByFieldName n ("name")).elim ("<anonymous>") Node.text) ∧
    (n.type = ("constructor_declaration") → (extractMethodInfo n).return_type = none) ∧
    (extractMethodInfo n).params =
      (match childByFieldName n ("parameters") with
       | none => []
       | some pn =>
          (pn.children.filter (fun p => p.type = ("parameter"))).map (fun p =>
            ((childByFieldName p ("type")).elim ("?") Node.text) ++ " " ++
            ((childByFieldName p ("name")).elim ("param") Node.text))) := by
  refine ⟨rfl, ?_, ?_⟩
  · intro hc
    unfold extractMethodInfo
    simp only []
    rw [hc]
    simp
  · unfold extractMethodInfo
    simp only []
    cases hp : childByFieldName n ("parameters") with
    | none => rfl
    | some pn =>
        simp only []
        rw [filterMap_guard (fun p : Node => p.type = ("parameter"))
          (fun p : Node =>
            ((childByFieldName p ("type")).elim ("?") Node.text) ++ " " ++
            ((childByFieldName p ("name")).elim ("param") Node.text)) pn.children]

/-- Witness for claim9_thm: the concrete constructor's return type is
omitted. -/
theorem claim9_witness : (extractMethodInfo ctorNode).return_type = none :=
  (claim9_thm ctorNode (Or.inr rfl)).2.1 rfl

/-- C10: indexing a unit never fails — in particular the unguarded
`self.classes[fqcn]` lookup in the method extractor never raises, because at
every point of the walk where the class stack is non-empty, the FQCN computed
from it has already been registered. -/
theorem claim10_thm (root : Node) (R : Registry) (hnd : List.Nodup (classKeys R)) :
    ∃ R2, indexSource root R = Except.ok R2 := by
  obtain ⟨R2, new, heq, _, _, _⟩ := indexSource_master root R hnd
  exact ⟨R2, heq⟩

/-- Witness for claim10_thm at the nested unit. -/
theorem claim10_witness : ∃ R2, indexSource nestRoot emptyRegistry = Except.ok R2 :=
  claim10_thm nestRoot emptyRegistry (by decide)

end CallGraph
